import Mathlib

/-!
Verification of the task-calendar plugin (`src/main.ts`) against its
natural-language specification.

Modelling conventions, shared by all definitions below:

* A JavaScript `Date` is modelled as its epoch value in milliseconds
  (`Int`, as returned by `getTime()`).  The local timezone is modelled as a
  fixed additive offset `tz` in milliseconds (local wall-clock time of an
  instant `t` is `t + tz`); daylight-saving transitions are out of scope.
* JavaScript strings are sequences of characters; they are modelled as
  `String` (for task fields) or `List Char` (written `Str`, for the
  line-level parsing functions).  The file content handed to the toggle
  code is modelled as its list of lines, i.e. the result of the
  `split('\n')` the source performs on it (`join('\n')` is its inverse,
  so "content unchanged" is faithfully "list of lines unchanged").
* Regular expressions from the source are translated into explicit
  deterministic parsers whose behaviour coincides with the JS regex
  (leftmost match, greedy quantifiers with the backtracking the concrete
  patterns allow).  `\s` is modelled by the common whitespace characters;
  `.` excludes the JS line terminators.
-/

abbrev Str := List Char

/-- Characters matched by the JS `\s` class (restricted to the characters
that can actually occur in the parsed material). -/
def jsWsChar (c : Char) : Bool :=
  c = ' ' || c = '\t' || c = '\n' || c = '\r' || c = '\x0b' || c = '\x0c'

/-- Characters matched by the JS `.` (anything but a line terminator). -/
def jsDotChar (c : Char) : Bool :=
  !(c = '\n' || c = '\r' || c = '\u2028' || c = '\u2029')

/-- ASCII lowercasing of one character, the effect of the `i` regex flag on
the ASCII search patterns used by the source. -/
def lowerChar (c : Char) : Char :=
  if 'A' ≤ c && c ≤ 'Z' then Char.ofNat (c.toNat + 32) else c

def lowerStr (s : Str) : Str := s.map lowerChar

/-- Does `pat` occur at the very start of `s`?  (One regex alternative
tried at a fixed position.) -/
def leadMatch : Str → Str → Bool
  | [], _ => true
  | _ :: _, [] => false
  | p :: ps, c :: cs => p == c && leadMatch ps cs

/-- Does `pat` occur anywhere in `s`?  Models `String.prototype.includes`
and an un-anchored regex literal search. -/
def hasSub : Str → Str → Bool
  | [], pat => leadMatch pat []
  | s@(_ :: t), pat => leadMatch pat s || hasSub t pat

/-- Model of `String.prototype.trim`. -/
def jsTrim (s : Str) : Str :=
  ((s.dropWhile jsWsChar).reverse.dropWhile jsWsChar).reverse

theorem leadMatch_here (rest : Str) (p : Char) (ps : Str) :
    leadMatch [] rest = true ∧ leadMatch (p :: ps) (p :: rest) = leadMatch ps rest := by
  constructor
  · rfl
  · simp [leadMatch]

theorem hasSub_append_right (a b pat : Str) (h : hasSub b pat = true) :
    hasSub (a ++ b) pat = true := by
  induction a with
  | nil => simpa using h
  | cons c t ih =>
    simp only [List.cons_append, hasSub]
    simp [ih]

/- ### Decimal numerals

`` `${task.line}` `` renders a JS number; for the natural line indices the
source uses, this is the standard decimal numeral. -/

def digitChar : Nat → Char
  | 0 => '0' | 1 => '1' | 2 => '2' | 3 => '3' | 4 => '4'
  | 5 => '5' | 6 => '6' | 7 => '7' | 8 => '8' | 9 => '9'
  | _ => '?'

def natDigits (n : Nat) : Str :=
  if n < 10 then [digitChar n]
  else natDigits (n / 10) ++ [digitChar (n % 10)]
termination_by n
decreasing_by exact Nat.div_lt_self (by omega) (by omega)

def digitsVal (l : Str) : Nat :=
  l.foldl (fun a c => a * 10 + (c.toNat - 48)) 0

theorem digitChar_spec (k : Nat) (h : k < 10) :
    (digitChar k).toNat - 48 = k ∧ digitChar k ≠ ':' := by
  interval_cases k <;> exact ⟨by decide, by decide⟩

theorem digitsVal_aux (l : Str) (a : Nat) :
    l.foldl (fun a c => a * 10 + (c.toNat - 48)) a =
      a * 10 ^ l.length + digitsVal l := by
  induction l generalizing a with
  | nil => simp [digitsVal]
  | cons c t ih =>
    have h1 := ih (a * 10 + (c.toNat - 48))
    have h2 := ih (0 * 10 + (c.toNat - 48))
    simp only [digitsVal, List.foldl_cons, List.length_cons] at h1 h2 ⊢
    rw [h1, h2]
    ring

theorem digitsVal_natDigits (n : Nat) : digitsVal (natDigits n) = n := by
  induction n using Nat.strong_induction_on with
  | _ n ih =>
    rw [natDigits]
    by_cases h : n < 10
    · simp only [if_pos h, digitsVal, List.foldl_cons, List.foldl_nil]
      have := (digitChar_spec n h).1
      omega
    · simp only [if_neg h]
      have hd : n / 10 < n := Nat.div_lt_self (by omega) (by omega)
      have hm : n % 10 < 10 := Nat.mod_lt _ (by omega)
      rw [digitsVal, List.foldl_append, List.foldl_cons, List.foldl_nil]
      have h1 : (natDigits (n / 10)).foldl (fun a c => a * 10 + (c.toNat - 48)) 0 =
          n / 10 := ih _ hd
      rw [h1, (digitChar_spec _ hm).1]
      omega

theorem natDigits_inj (a b : Nat) (h : natDigits a = natDigits b) : a = b := by
  have := digitsVal_natDigits a
  rw [h, digitsVal_natDigits] at this
  omega

theorem natDigits_no_colon (n : Nat) : ∀ c ∈ natDigits n, c ≠ ':' := by
  induction n using Nat.strong_induction_on with
  | _ n ih =>
    intro c hc
    rw [natDigits] at hc
    by_cases h : n < 10
    · rw [if_pos h] at hc
      rcases List.mem_singleton.mp hc with rfl
      exact (digitChar_spec n h).2
    · rw [if_neg h] at hc
      rcases List.mem_append.mp hc with h1 | h1
      · exact ih _ (Nat.div_lt_self (by omega) (by omega)) c h1
      · rcases List.mem_singleton.mp h1 with rfl
        exact (digitChar_spec _ (Nat.mod_lt _ (by omega))).2

/-- Splitting a string at a separator character that is known not to occur
in the two right parts is unambiguous (used for the `` `${path}:${line}` ``
deduplication keys, scanning from the right since the left part may contain
the separator). -/
theorem first_sep_split (sep : Char) :
    ∀ u1 v1 u2 v2 : Str, (∀ c ∈ u1, c ≠ sep) → (∀ c ∈ u2, c ≠ sep) →
      u1 ++ sep :: v1 = u2 ++ sep :: v2 → u1 = u2 ∧ v1 = v2 := by
  intro u1
  induction u1 with
  | nil =>
    intro v1 u2 v2 _ h2 heq
    cases u2 with
    | nil => simpa using heq
    | cons c t =>
      simp only [List.nil_append, List.cons_append, List.cons.injEq] at heq
      exact absurd heq.1.symm (h2 c (by simp))
  | cons c t ih =>
    intro v1 u2 v2 h1 h2 heq
    cases u2 with
    | nil =>
      simp only [List.cons_append, List.nil_append, List.cons.injEq] at heq
      exact absurd heq.1 (h1 c (by simp))
    | cons c2 t2 =>
      simp only [List.cons_append, List.cons.injEq] at heq
      obtain ⟨rfl, heq2⟩ := heq
      obtain ⟨rfl, rfl⟩ := ih v1 t2 v2 (fun x hx => h1 x (by simp [hx]))
        (fun x hx => h2 x (by simp [hx])) heq2
      exact ⟨rfl, rfl⟩

theorem last_sep_split (sep : Char) (a1 d1 a2 d2 : Str)
    (h1 : ∀ c ∈ d1, c ≠ sep) (h2 : ∀ c ∈ d2, c ≠ sep)
    (heq : a1 ++ sep :: d1 = a2 ++ sep :: d2) : a1 = a2 ∧ d1 = d2 := by
  have hrev : d1.reverse ++ sep :: a1.reverse = d2.reverse ++ sep :: a2.reverse := by
    have := congrArg List.reverse heq
    simpa [List.reverse_append] using this
  have := first_sep_split sep d1.reverse a1.reverse d2.reverse a2.reverse
    (fun c hc => h1 c (List.mem_reverse.mp hc))
    (fun c hc => h2 c (List.mem_reverse.mp hc)) hrev
  exact ⟨List.reverse_injective this.2, List.reverse_injective this.1⟩

/- ### Dates

`Date` values are epoch milliseconds; `tz` is the fixed local-time offset in
milliseconds (local wall-clock = instant + tz). -/

def msPerDay : Int := 86400000

/-- The local calendar day (days since 1970-01-01) containing instant `t`;
this is what `toDateString()` exposes up to formatting. -/
def localDay (tz t : Int) : Int := (t + tz) / msPerDay

/-- Effect of `d.setHours(0, 0, 0, 0)`: the first instant of the local
calendar day containing `t`. -/
def jsSetMidnight (tz t : Int) : Int := localDay tz t * msPerDay - tz

/-- `getHours()` of instant `t` in the local timezone. -/
def jsGetHours (tz t : Int) : Int := ((t + tz) / 3600000) % 24

/-- `getMinutes()` of instant `t` in the local timezone. -/
def jsGetMinutes (tz t : Int) : Int := ((t + tz) / 60000) % 60

/-- `getSeconds()` of instant `t` in the local timezone. -/
def jsGetSeconds (tz t : Int) : Int := ((t + tz) / 1000) % 60

/-- `getMilliseconds()` of instant `t` in the local timezone. -/
def jsGetMilliseconds (tz t : Int) : Int := (t + tz) % 1000

/-- Days from 1970-01-01 to the civil date `y-m-d` (proleptic Gregorian,
`m` 1-based); the standard `days_from_civil` computation the JS engine
performs for `Date` construction. -/
def daysFromCivil (y m d : Int) : Int :=
  let y2 : Int := if m ≤ 2 then y - 1 else y
  let era : Int := (if 0 ≤ y2 then y2 else y2 - 399).tdiv 400
  let yoe : Int := y2 - era * 400
  let mp : Int := if 2 < m then m - 3 else m + 9
  let doy : Int := (153 * mp + 2).tdiv 5 + d - 1
  let doe : Int := yoe * 365 + yoe.tdiv 4 - yoe.tdiv 100 + doy
  era * 146097 + doe - 719468

/-- Model of `new Date(year, monthIndex, day)` (`monthIndex` 0-based as in
JS): local midnight of that civil date. -/
def newDateYMD (tz y : Int) (monthIndex : Int) (d : Int) : Int :=
  daysFromCivil y (monthIndex + 1) d * msPerDay - tz

/-- Model of `getDay()`: the local weekday, 0 = Sunday … 6 = Saturday
(1970-01-01 was a Thursday, weekday 4). -/
def jsGetDay (tz t : Int) : Int := (localDay tz t + 4) % 7

theorem localDay_setMidnight (tz t : Int) :
    localDay tz (jsSetMidnight tz t) = localDay tz t := by
  unfold jsSetMidnight localDay msPerDay
  omega

theorem setMidnight_le (tz t : Int) : jsSetMidnight tz t ≤ t := by
  unfold jsSetMidnight localDay msPerDay
  omega

theorem setMidnight_lt_iff (tz a b : Int) :
    jsSetMidnight tz a < jsSetMidnight tz b ↔ localDay tz a < localDay tz b := by
  unfold jsSetMidnight localDay msPerDay
  omega

theorem lt_setMidnight_of_day_lt (tz a b : Int) (h : localDay tz a < localDay tz b) :
    a < jsSetMidnight tz b := by
  unfold jsSetMidnight localDay msPerDay
  unfold localDay msPerDay at h
  omega

theorem midnight_time_components (tz t : Int) :
    jsGetHours tz (jsSetMidnight tz t) = 0 ∧
    jsGetMinutes tz (jsSetMidnight tz t) = 0 ∧
    jsGetSeconds tz (jsSetMidnight tz t) = 0 ∧
    jsGetMilliseconds tz (jsSetMidnight tz t) = 0 := by
  unfold jsGetHours jsGetMinutes jsGetSeconds jsGetMilliseconds jsSetMidnight localDay msPerDay
  omega

/- ### The checklist-line pattern

Translation of the full task-line regex used by `loadTasksManually` and
`toggleTaskCompletionDirect`:

    /^([\s\t]*[-*])\s+\[([ xX✓✅])\]\s+(.+)$/

The returned triple is `(group1, group2, group3)`: indent-plus-bullet,
marker character, task text.  Greediness analysis: the leading `[\s\t]*`
must stop exactly at the bullet; the `\s+` runs must stop exactly at the
following literal; for the trailing `\s+(.+)$`, the greedy `\s+` takes the
whole whitespace run after `]` and `(.+)` the (non-empty) remainder, except
when everything after `]` is whitespace, in which case backtracking leaves
exactly the last character to `(.+)` (which must then be `.`-matchable). -/

def taskMarkerChar (c : Char) : Bool :=
  c = ' ' || c = 'x' || c = 'X' || c = '✓' || c = '✅'

def parseTaskLine (l : Str) : Option (Str × Char × Str) :=
  match l.dropWhile jsWsChar with
  | [] => none
  | b :: r1 =>
    if b = '-' || b = '*' then
      match r1.dropWhile jsWsChar with
      | '[' :: m :: ']' :: r3 =>
        if (r1.takeWhile jsWsChar) ≠ [] && taskMarkerChar m then
          if (r3.takeWhile jsWsChar) = [] then none
          else if r3.dropWhile jsWsChar = [] then
            match r3.getLast? with
            | some c =>
              if 2 ≤ r3.length && jsDotChar c then
                some (l.takeWhile jsWsChar ++ [b], m, [c])
              else none
            | none => none
          else if (r3.dropWhile jsWsChar).all jsDotChar then
            some (l.takeWhile jsWsChar ++ [b], m, r3.dropWhile jsWsChar)
          else none
        else none
      | _ => none
    else none

/-- Translation of the marker-only prefix regex used after
`executeToggleTaskDoneCommand` (line 1785):
`/^[\s\t]*[-*]\s+\[([ xX✓✅])\]/` — it returns the marker character. -/
def parseMarkerOnly (l : Str) : Option Char :=
  match l.dropWhile jsWsChar with
  | [] => none
  | b :: r1 =>
    if b = '-' || b = '*' then
      match r1.dropWhile jsWsChar with
      | '[' :: m :: ']' :: _ =>
        if (r1.takeWhile jsWsChar) ≠ [] && taskMarkerChar m then some m else none
      | _ => none
    else none

/-- The body of `toggleTaskCompletionDirect` acting on one line: on a
pattern match, build the replacement line
`` `${indent} [${newStatus}] ${taskText}` `` and the new completion flag.
(`currentStatus` is a single captured character, so the source's
`currentStatus !== ''` conjunct is always true.) -/
def toggleLine (l : Str) : Option (Str × Bool) :=
  match parseTaskLine l with
  | none => none
  | some (ib, st, txt) =>
    let newSt := if st ≠ ' ' then ' ' else 'x'
    some (ib ++ ' ' :: '[' :: newSt :: ']' :: ' ' :: txt, newSt ≠ ' ')

/-- `toggleTaskCompletionDirect` without the I/O wrapper: given the line
index and the file's lines, either fail (out-of-bounds index or no pattern
match — the function returns `false` without writing) or produce the new
lines and the new `isCompleted` value. -/
def directCore (line : Nat) (content : List Str) : Option (List Str × Bool) :=
  match content[line]? with
  | none => none
  | some l =>
    match toggleLine l with
    | none => none
    | some (nl, comp) => some (content.set line nl, comp)

theorem dropWhile_all_append (p : Char → Bool) (a b : Str) (h : a.all p = true) :
    (a ++ b).dropWhile p = b.dropWhile p := by
  induction a with
  | nil => rfl
  | cons c t ih =>
    simp only [List.all_cons, Bool.and_eq_true] at h
    simp [List.dropWhile_cons, h.1, ih h.2]

theorem takeWhile_all_append (p : Char → Bool) (a b : Str) (h : a.all p = true) :
    (a ++ b).takeWhile p = a ++ b.takeWhile p := by
  induction a with
  | nil => rfl
  | cons c t ih =>
    simp only [List.all_cons, Bool.and_eq_true] at h
    simp [List.takeWhile_cons, h.1, ih h.2]

theorem dropWhile_head_false (p : Char → Bool) (l t : Str) (c : Char)
    (h : l.dropWhile p = c :: t) : p c = false := by
  induction l with
  | nil => simp at h
  | cons d r ih =>
    rw [List.dropWhile_cons] at h
    by_cases hd : p d = true
    · rw [if_pos hd] at h; exact ih h
    · rw [if_neg hd] at h
      cases h
      simpa using hd

theorem dropWhile_nil_all (p : Char → Bool) (l : Str) (h : l.dropWhile p = []) :
    l.all p = true := by
  induction l with
  | nil => rfl
  | cons d r ih =>
    rw [List.dropWhile_cons] at h
    by_cases hd : p d = true
    · rw [if_pos hd] at h
      simp [hd, ih h]
    · rw [if_neg hd] at h
      simp at h

theorem takeWhile_all_self (p : Char → Bool) (l : Str) :
    (l.takeWhile p).all p = true :=
  List.all_eq_true.mpr fun _ hx => List.mem_takeWhile_imp hx

/-- Structural facts recorded by a successful `parseTaskLine`. -/
theorem parseTaskLine_sound (l ib txt : Str) (m : Char)
    (h : parseTaskLine l = some (ib, m, txt)) :
    (∃ iws b, ib = iws ++ [b] ∧ iws.all jsWsChar = true ∧ (b = '-' ∨ b = '*') ∧
      jsWsChar b = false) ∧
    taskMarkerChar m = true ∧ txt ≠ [] ∧ txt.all jsDotChar = true ∧
    ((∃ c, txt = [c] ∧ jsWsChar c = true) ∨
      (∃ c t, txt = c :: t ∧ jsWsChar c = false)) := by
  unfold parseTaskLine at h
  split at h
  · exact absurd h (by simp)
  next b r1 hdw =>
    split at h
    case isFalse => exact absurd h (by simp)
    next hb =>
      split at h
      case h_2 => exact absurd h (by simp)
      next m0 r3 hr2 =>
        split at h
        case isFalse => exact absurd h (by simp)
        next hcond =>
          simp only [Bool.and_eq_true, decide_eq_true_eq, ne_eq] at hcond
          simp only [Bool.or_eq_true, decide_eq_true_eq] at hb
          split at h
          · exact absurd h (by simp)
          next htw =>
            have hbf : jsWsChar b = false := by
              rcases hb with rfl | rfl <;> rfl
            split at h
            next hdrop =>
              split at h
              case h_2 => exact absurd h (by simp)
              next c hlast =>
                split at h
                case isFalse => exact absurd h (by simp)
                next hlen =>
                  simp only [Bool.and_eq_true, decide_eq_true_eq] at hlen
                  rcases Option.some.injEq .. ▸ h with h'
                  injection h' with h1 h2
                  injection h2 with h2 h3
                  subst h1; subst h2; subst h3
                  refine ⟨⟨l.takeWhile jsWsChar, b, rfl, takeWhile_all_self _ _, ?_, hbf⟩,
                    hcond.2, by simp, by simp [hlen.2], Or.inl ⟨c, rfl, ?_⟩⟩
                  · rcases hb with h | h
                    · exact Or.inl h
                    · exact Or.inr h
                  · have hmem : c ∈ r3 := List.mem_of_mem_getLast? hlast
                    have := dropWhile_nil_all jsWsChar r3 hdrop
                    exact List.all_eq_true.mp this c hmem
            next hdrop =>
              split at h
              case isFalse => exact absurd h (by simp)
              next hall =>
                rcases Option.some.injEq .. ▸ h with h'
                injection h' with h1 h2
                injection h2 with h2 h3
                subst h1; subst h2; subst h3
                have hne : r3.dropWhile jsWsChar ≠ [] := hdrop
                refine ⟨⟨l.takeWhile jsWsChar, b, rfl, takeWhile_all_self _ _, ?_, hbf⟩,
                  hcond.2, hne, hall, ?_⟩
                · rcases hb with h | h
                  · exact Or.inl h
                  · exact Or.inr h
                · cases hdw2 : r3.dropWhile jsWsChar with
                  | nil => exact absurd hdw2 hne
                  | cons c t =>
                    exact Or.inr ⟨c, t, rfl, dropWhile_head_false jsWsChar r3 t c hdw2⟩

/-- A line written back by the direct toggle parses again, with the same
indent and text and the written marker. -/
theorem parseTaskLine_rebuild (iws : Str) (b m : Char) (txt : Str)
    (hiws : iws.all jsWsChar = true) (hb : b = '-' ∨ b = '*')
    (hm : taskMarkerChar m = true) (hdot : txt.all jsDotChar = true)
    (hshape : (∃ c, txt = [c] ∧ jsWsChar c = true) ∨
      (∃ c t, txt = c :: t ∧ jsWsChar c = false)) :
    parseTaskLine ((iws ++ [b]) ++ ' ' :: '[' :: m :: ']' :: ' ' :: txt) =
      some (iws ++ [b], m, txt) := by
  have hbf : jsWsChar b = false := by rcases hb with rfl | rfl <;> rfl
  have hdw : ((iws ++ [b]) ++ ' ' :: '[' :: m :: ']' :: ' ' :: txt).dropWhile jsWsChar =
      b :: ' ' :: '[' :: m :: ']' :: ' ' :: txt := by
    rw [List.append_assoc, dropWhile_all_append _ _ _ hiws]
    simp [List.dropWhile_cons, hbf]
  have htw : ((iws ++ [b]) ++ ' ' :: '[' :: m :: ']' :: ' ' :: txt).takeWhile jsWsChar =
      iws := by
    rw [List.append_assoc, takeWhile_all_append _ _ _ hiws]
    simp [List.takeWhile_cons, hbf]
  have hr1tw : (' ' :: '[' :: m :: ']' :: ' ' :: txt).takeWhile jsWsChar = [' '] := by
    simp [List.takeWhile_cons, jsWsChar]
  have hr1dw : (' ' :: '[' :: m :: ']' :: ' ' :: txt).dropWhile jsWsChar =
      '[' :: m :: ']' :: ' ' :: txt := by
    simp [List.dropWhile_cons, jsWsChar]
  have hbOr : (b = '-' || b = '*') = true := by
    rcases hb with rfl | rfl <;> rfl
  unfold parseTaskLine
  rw [hdw]
  simp only []
  rw [if_pos hbOr, hr1dw, htw]
  have hcond : ((' ' :: '[' :: m :: ']' :: ' ' :: txt).takeWhile jsWsChar ≠ [] ∧
      taskMarkerChar m = true) := by
    rw [hr1tw]; exact ⟨by simp, hm⟩
  simp only []
  rw [if_pos (by simp [hr1tw, hm])]
  have hsp : jsWsChar ' ' = true := rfl
  rcases hshape with ⟨c, rfl, hws⟩ | ⟨c, t, rfl, hws⟩
  · have h3tw : ((' ' :: [c]).takeWhile jsWsChar) = ' ' :: c :: [].takeWhile jsWsChar := by
      simp [List.takeWhile_cons, hsp, hws]
    have h3dw : ((' ' :: [c]).dropWhile jsWsChar) = [] := by
      simp [List.dropWhile_cons, hsp, hws]
    rw [if_neg (by rw [h3tw]; simp)]
    rw [if_pos h3dw]
    have hlast : (' ' :: [c]).getLast? = some c := rfl
    rw [hlast]
    simp only []
    have hdc : jsDotChar c = true := by simpa using hdot
    rw [if_pos (by simp [hdc])]
  · have h3dw : ((' ' :: c :: t).dropWhile jsWsChar) = c :: t := by
      simp [List.dropWhile_cons, hsp, hws]
    have h3tw : ((' ' :: c :: t).takeWhile jsWsChar) = ' ' :: (c :: t).takeWhile jsWsChar := by
      simp [List.takeWhile_cons, hsp]
    rw [if_neg (by rw [h3tw]; simp)]
    rw [if_neg (by rw [h3dw]; simp)]
    rw [h3dw]
    rw [if_pos hdot]

namespace TaskCalendar

/- ### The task data model (`src/types.ts`) -/

/-- One discovered checklist item.  `file` is opaque beyond its path, so it
is modelled by the path; `date` is `Option` of epoch ms (`null` ↦ `none`). -/
structure Task where
  text : String
  date : Option Int
  path : String
  line : Nat
  isCompleted : Bool
deriving DecidableEq

/-- `task.text.includes('📅')` — the calendar-marker filter.  `📅` is a
single code point, so substring containment is containment of that
character. -/
def containsCalendarMarker (s : String) : Bool := s.toList.contains '📅'

/-- The deduplication key `` `${task.file.path}:${task.line}` `` from
`loadTasks` (line 627). -/
def taskKey (t : Task) : Str := t.path.toList ++ ':' :: natDigits t.line

/-- Insertion into the `Map` of `loadTasks` lines 625–631: keep the first
task for every key, preserving insertion order (JS `Map` iterates in
insertion order). -/
def dedupAux : List Task → List Str → List Task
  | [], _ => []
  | t :: rest, seen =>
    if seen.contains (taskKey t) then dedupAux rest seen
    else t :: dedupAux rest (taskKey t :: seen)

def dedupTasks (ts : List Task) : List Task := dedupAux ts []

/-- The aggregation performed by `loadTasks` after either discovery
strategy has produced its raw list (lines 619–632): filter to
calendar-marker tasks, then deduplicate by `(path, line)` key. -/
def loadTasksAggregate (raw : List Task) : List Task :=
  dedupTasks (raw.filter fun t => containsCalendarMarker t.text)

/- ### Calendar queries (`getTasksForDate`, `getOverdueTasks`) -/

/-- `getTasksForDate` (lines 1693–1714).  `now` is the instant `new Date()`
returns inside the function; `toDateString()` equality is local-calendar-day
equality. -/
def getTasksForDate (tz : Int) (tasks : List Task) (now date : Int) : List Task :=
  tasks.filter fun t =>
    match t.date with
    | none => false
    | some d =>
      if localDay tz d ≠ localDay tz date then false
      else if jsSetMidnight tz date < jsSetMidnight tz now && !t.isCompleted then false
      else true

/-- `getOverdueTasks` (lines 1716–1727). -/
def getOverdueTasks (tz : Int) (tasks : List Task) (now : Int) : List Task :=
  tasks.filter fun t =>
    match t.date with
    | none => false
    | some d => if jsSetMidnight tz now ≤ d then false else !t.isCompleted

/-- The sort of lines 1541–1544: ES2019+ `Array.prototype.sort` is stable,
and the comparator orders incomplete strictly before completed and is
indifferent otherwise, so the result is the stable partition. -/
def sortTasksJS (ts : List Task) : List Task :=
  ts.filter (fun t => !t.isCompleted) ++ ts.filter (fun t => t.isCompleted)

/-- The task list bound to one rendered grid cell (`renderCalendar` lines
1526–1544): the date's tasks, with the overdue bucket prepended exactly on
today's cell, filtered by the completed-task visibility flag, then
sorted incomplete-first. -/
def cellTasks (tz : Int) (tasks : List Task) (now cellDate : Int)
    (showCompleted : Bool) : List Task :=
  let dayTasks := getTasksForDate tz tasks now cellDate
  let withOverdue :=
    if cellDate = jsSetMidnight tz now then getOverdueTasks tz tasks now ++ dayTasks
    else dayTasks
  let filtered :=
    if showCompleted then withOverdue else withOverdue.filter fun t => !t.isCompleted
  sortTasksJS filtered

/-- What a rendered grid cell displays (lines 1551–1561): at most 4 tasks
(`slice(0, maxTasks)` with `maxTasks = 4`), and a numeric count element
that is created whenever the sorted list is non-empty, showing the total
count. -/
structure CellRender where
  displayed : List Task
  badgeShown : Bool
  badgeCount : Nat
deriving DecidableEq

def renderCell (sorted : List Task) : CellRender :=
  { displayed := sorted.take 4
    badgeShown := decide (0 < sorted.length)
    badgeCount := sorted.length }

/- ### Grid generation (`renderCalendar` lines 1498–1514) -/

/-- `new Date(year, month, 1)` plus the Monday adjustment
(`daysToSubtract`), as epoch ms. -/
def gridStartDate (tz y monthIndex : Int) : Int :=
  let firstDay := newDateYMD tz y monthIndex 1
  let firstDayOfWeek := jsGetDay tz firstDay
  let daysToSubtract := if firstDayOfWeek = 0 then 6 else firstDayOfWeek - 1
  firstDay - daysToSubtract * msPerDay

/-- The 42 cell dates of the rendered grid: `startDate + i` days for
`i = 0 … 41` (`setDate` arithmetic on local midnights adds whole days). -/
def gridCellDates (tz y monthIndex : Int) : List Int :=
  (List.range 42).map fun i : Nat => gridStartDate tz y monthIndex + (i : Int) * msPerDay

/- ### Date-token extraction (`extractDateFromText`, lines 806–829)

The four patterns are tried in order; for each, the regex engine finds the
leftmost match, the captured digit group is handed to `new Date(...)`, and
only if that produces a valid date is it (normalised to local midnight)
returned — an invalid capture falls through to the NEXT pattern, not to a
later occurrence of the same pattern. -/

def isDigitCh (c : Char) : Bool := '0' ≤ c && c ≤ '9'

/-- Read exactly `n` digits from the front; return their value and the
remainder. -/
def takeDigits : Nat → Str → Option (Nat × Str)
  | 0, s => some (0, s)
  | _ + 1, [] => none
  | n + 1, c :: s =>
    if isDigitCh c then
      match takeDigits n s with
      | some (v, r) => some ((c.toNat - 48) * 10 ^ n + v, r)
      | none => none
    else none

/-- Is `y` a Gregorian leap year? -/
def isLeapYear (y : Int) : Bool := y % 4 = 0 && (y % 100 ≠ 0 || y % 400 = 0)

def daysInMonth (y m : Int) : Int :=
  if m = 2 then (if isLeapYear y then 29 else 28)
  else if m = 4 || m = 6 || m = 9 || m = 11 then 30
  else 31

/-- `new Date("YYYY-MM-DD")`: the ISO date-only form is parsed as UTC
midnight of the civil date, invalid (`NaN`) outside the real calendar. -/
def jsParseISO (_tz y m d : Int) : Option Int :=
  if 1 ≤ m && m ≤ 12 && 1 ≤ d && d ≤ daysInMonth y m then
    some (daysFromCivil y m d * msPerDay)
  else none

/-- `new Date("A/B/YYYY")` and `new Date("A.B.YYYY")` (V8 legacy parser):
month/day/year in local time, invalid outside the real calendar. -/
def jsParseMDY (tz a b y : Int) : Option Int :=
  if 1 ≤ a && a ≤ 12 && 1 ≤ b && b ≤ daysInMonth y a then
    some (daysFromCivil y a b * msPerDay - tz)
  else none

/-- Match `\d{4}-\d{2}-\d{2}` at the current position, returning the
year/month/day values of the captured group. -/
def matchYMDAt (s : Str) : Option (Int × Int × Int) :=
  match takeDigits 4 s with
  | none => none
  | some (y, r1) =>
    match r1 with
    | '-' :: r2 =>
      match takeDigits 2 r2 with
      | none => none
      | some (m, r3) =>
        match r3 with
        | '-' :: r4 =>
          match takeDigits 2 r4 with
          | none => none
          | some (d, _) => some ((y : Int), (m : Int), (d : Int))
        | _ => none
    | _ => none

/-- Match `\d{1,2}` followed by the literal `sep` (greedy: two digits
preferred, backtracking to one). -/
def matchD12Sep (sep : Char) (s : Str) : Option (Nat × Str) :=
  match s with
  | c1 :: c2 :: c3 :: r =>
    if isDigitCh c1 && isDigitCh c2 && c3 = sep then
      some ((c1.toNat - 48) * 10 + (c2.toNat - 48), r)
    else if isDigitCh c1 && c2 = sep then
      some (c1.toNat - 48, c3 :: r)
    else none
  | c1 :: c2 :: r =>
    if isDigitCh c1 && c2 = sep then some (c1.toNat - 48, r) else none
  | _ => none

/-- Match `\d{1,2}sep\d{1,2}sep\d{4}` at the current position. -/
def matchDDYAt (sep : Char) (s : Str) : Option (Int × Int × Int) :=
  match matchD12Sep sep s with
  | none => none
  | some (a, r1) =>
    match matchD12Sep sep r1 with
    | none => none
    | some (b, r2) =>
      match takeDigits 4 r2 with
      | none => none
      | some (y, _) => some ((a : Int), (b : Int), (y : Int))

/-- The keyword/emoji alternatives of pattern 1, already lowercased (the
pattern is case-insensitive); `due::` need not be listed separately from
`due:` for matching purposes, but the alternation is kept as in the
source. -/
def dateKeywordAlts : List Str :=
  ["📅".toList, "due::".toList, "due:".toList, "start::".toList, "start:".toList,
    "scheduled::".toList, "scheduled:".toList]

/-- Try pattern 1 at one position of the (lowercased) text: some
alternative, then `\s*`, then the `\d{4}-\d{2}-\d{2}` group. -/
def tryPattern1At (s : Str) : Option (Int × Int × Int) :=
  dateKeywordAlts.findSome? fun alt =>
    if leadMatch alt s then
      matchYMDAt ((s.drop alt.length).dropWhile jsWsChar)
    else none

/-- Leftmost match of pattern 1 over the whole text. -/
def scanPattern1 : Str → Option (Int × Int × Int)
  | [] => none
  | s@(_ :: t) =>
    match tryPattern1At s with
    | some g => some g
    | none => scanPattern1 t

/-- Leftmost match of a positional matcher over the whole text. -/
def scanFor (f : Str → Option (Int × Int × Int)) : Str → Option (Int × Int × Int)
  | [] => none
  | s@(_ :: t) =>
    match f s with
    | some g => some g
    | none => scanFor f t

/-- Patterns 3 (`D/M/YYYY`) and 4 (`D.M.YYYY`) of `extractDateFromText`. -/
def tryPatterns34 (tz : Int) (text : Str) : Option Int :=
  let p3 :=
    match scanFor (matchDDYAt '/') text with
    | some (a, b, y) => (jsParseMDY tz a b y).map (jsSetMidnight tz)
    | none => none
  match p3 with
  | some v => some v
  | none =>
    match scanFor (matchDDYAt '.') text with
    | some (a, b, y) => (jsParseMDY tz a b y).map (jsSetMidnight tz)
    | none => none

/-- `extractDateFromText` (lines 806–829): try the four patterns in order;
a pattern whose leftmost capture parses to a valid date returns that date
normalised to local midnight (`setHours(0,0,0,0)`); otherwise fall through
to the next pattern. -/
def extractDateFromText (tz : Int) (text : Str) : Option Int :=
  let p1 :=
    match scanPattern1 (lowerStr text) with
    | some (y, m, d) => (jsParseISO tz y m d).map (jsSetMidnight tz)
    | none => none
  match p1 with
  | some v => some v
  | none =>
    match scanFor matchYMDAt text with
    | some (y, m, d) =>
      match (jsParseISO tz y m d).map (jsSetMidnight tz) with
      | some v => some v
      | none => tryPatterns34 tz text
    | none => tryPatterns34 tz text

/- ### Task-creation flow (`insertTask`, lines 151–175) -/

/-- The `hasDate` test of line 160:
`taskLine.match(/due::|due:|start::|start:|scheduled::|scheduled:|📅/i)`.
Since `due::` contains `due:` (and likewise for the others), the test is a
case-insensitive substring search for `due:`, `start:`, `scheduled:` or
`📅`.  Note that — unlike `extractDateFromText` — bare dates are NOT part
of this pattern. -/
def hasDateKeyword (s : Str) : Bool :=
  hasSub (lowerStr s) "due:".toList || hasSub (lowerStr s) "start:".toList ||
    hasSub (lowerStr s) "scheduled:".toList || hasSub (lowerStr s) "📅".toList

/-- Lines 151–164: when an explicit date was supplied and the `hasDate`
test fails, append `' due::' + dateStr` to the trimmed line; otherwise the
line is kept as obtained.  `dateStr` is the `YYYY-MM-DD` rendering of the
supplied date. -/
def finalTaskLine (taskLine : Str) (dateGiven : Bool) (dateStr : Str) : Str :=
  if dateGiven && !hasDateKeyword taskLine then
    jsTrim taskLine ++ (' ' :: 'd' :: 'u' :: 'e' :: ':' :: ':' :: dateStr)
  else taskLine

/-- Lines 166–175: the authoritative target date is re-resolved from the
finalized line; an extracted date overrides the supplied one, and with
neither the target defaults to `new Date()` (now). -/
def resolveTargetDate (tz : Int) (supplied : Option Int) (finalLine : Str)
    (now : Int) : Int :=
  match extractDateFromText tz finalLine with
  | some d => d
  | none =>
    match supplied with
    | some d => d
    | none => now

/- ### Date resolution of the two discovery strategies (C6)

`momentParse` stands for the external `moment(fileName, format, true)`
parser (the format string is a user setting and `moment` is an external
collaborator): it returns the epoch ms of `.toDate()` when the strict parse
is valid.  The remaining steps are translated from the source. -/

/-- Does the file basename match the legacy `/^\d{4}-\d{2}$/` pattern? -/
def legacyNameMatch (fname : Str) : Bool :=
  match fname with
  | [a, b, c, d, '-', e, f] =>
    isDigitCh a && isDigitCh b && isDigitCh c && isDigitCh d &&
      isDigitCh e && isDigitCh f
  | _ => false

/-- `fileName.split('-').map(Number)` on a legacy-shaped name: the year and
(1-based) month encoded in `YYYY-MM`. -/
def legacyNameYM (fname : Str) : Int × Int :=
  ((digitsVal (fname.take 4) : Int), (digitsVal (fname.drop 5) : Int))

/-- The filename fallback shared by both strategies (lines 701–718 and
904–921): strict-parse the basename with the configured format, else the
legacy `YYYY-MM` pattern as `new Date(year, month - 1, 1)`, else today at
local midnight. -/
def fileNameFallbackDate (tz : Int) (momentParse : Str → Option Int)
    (fname : Str) (now : Int) : Int :=
  match momentParse fname with
  | some ms => ms
  | none =>
    if legacyNameMatch fname then
      newDateYMD tz (legacyNameYM fname).1 ((legacyNameYM fname).2 - 1) 1
    else jsSetMidnight tz now

/-- Date resolution of the API strategy (`loadTasksFromAPI`, lines
679–727).  `due`, `strt` and `sched` model the duck-typed date fields:
`none` = absent/falsy, `some none` = present but parsing to `NaN`,
`some (some ms)` = parsing to a valid instant.  The result is the value
stored in the pushed task's `date` after the unconditional
`setHours(0,0,0,0)`. -/
def resolveTaskDateAPI (tz : Int) (momentParse : Str → Option Int)
    (due strt sched : Option (Option Int)) (text : Str) (fname : Str)
    (now : Int) : Int :=
  let fromFields : Option (Option Int) :=
    match due with
    | some v => some v
    | none =>
      match strt with
      | some v => some v
      | none => sched
  let afterExtract : Option Int :=
    match fromFields with
    | some (some ms) => some ms
    | _ => extractDateFromText tz text
  let resolved : Int :=
    match afterExtract with
    | some ms => ms
    | none => fileNameFallbackDate tz momentParse fname now
  jsSetMidnight tz resolved

/-- Date resolution of the manual strategy (`loadTasksManually`, lines
899–930): extract from the full task text, else the filename fallback,
then the unconditional `setHours(0,0,0,0)`. -/
def resolveTaskDateManual (tz : Int) (momentParse : Str → Option Int)
    (text : Str) (fname : Str) (now : Int) : Int :=
  let resolved : Int :=
    match extractDateFromText tz text with
    | some ms => ms
    | none => fileNameFallbackDate tz momentParse fname now
  jsSetMidnight tz resolved

/-- The task pushed by the API strategy (line 789–795), restricted to the
fields the claims are about. -/
def mkTaskAPI (tz : Int) (momentParse : Str → Option Int)
    (due strt sched : Option (Option Int)) (text : String) (path : String)
    (fname : Str) (line : Nat) (completed : Bool) (now : Int) : Task :=
  { text := text
    date := some (resolveTaskDateAPI tz momentParse due strt sched text.toList fname now)
    path := path
    line := line
    isCompleted := completed }

/-- The task pushed by the manual strategy (lines 932–938). -/
def mkTaskManual (tz : Int) (momentParse : Str → Option Int) (text : String)
    (path : String) (fname : Str) (line : Nat) (completed : Bool)
    (now : Int) : Task :=
  { text := text
    date := some (resolveTaskDateManual tz momentParse text.toList fname now)
    path := path
    line := line
    isCompleted := completed }

/- ### The completion-toggle protocol (`toggleTaskCompletion` and its
fallback chain, lines 1745–2008)

External collaborators (the Tasks plugin API, the vault, the command
registry) are modelled as pure oracles fixed in a `ToggleEnv`: each call
either throws (`none` / a `false` flag) with no effect, or completes,
possibly handing back new file content (the service mutates the note
out of band).  The note of interest is the task's own backing note; its
content is threaded through as a list of lines. -/

/-- One entry of the service's task listing, with the three optional
task-level mutation methods of Methods 4–6. -/
structure ApiEntry where
  path : String
  line : Nat
  hasToggle : Bool
  toggleEff : Option (List Str)
  hasToggleDone : Bool
  toggleDoneEff : Option (List Str)
  hasSetStatus : Bool
  setStatusEff : Option (List Str)

/-- Behaviour of the listing accessor chain
(`getTasks`/`getAllTasks`/`cache`). -/
inductive ListingBehavior
  | absent
  | throws
  | ok (entries : List ApiEntry)

structure ToggleEnv where
  apiAvailable : Bool
  readOk : Bool
  writeOk : Bool
  hasExecToggle : Bool
  execToggle : Str → Option Str
  hasToggleTask : Bool
  toggleTaskEff : Option (List Str)
  listing : ListingBehavior
  openOk : Bool
  editorOk : Bool
  cmdEff : String → Option (List Str)

structure ToggleResult where
  success : Bool
  content : List Str
  isCompleted : Bool
deriving DecidableEq

/-- The `find` of lines 1816–1820 / 1850–1854. -/
def findApiTask (entries : List ApiEntry) (t : Task) : Option ApiEntry :=
  entries.find? fun e => e.path == t.path && e.line == t.line

/-- The candidate command identifiers of lines 1924–1933. -/
def toggleCommandIds : List String :=
  ["tasks:toggle-task", "tasks:toggle-done", "tasks:mark-task-complete",
    "tasks:mark-task-incomplete", "tasks-plugin:toggle-task",
    "tasks-plugin:toggle-done", "tasks-plugin:mark-task-complete",
    "tasks-plugin:mark-task-incomplete"]

/-- The filtering of lines 1936–1938 (`includes` is substring search). -/
def targetCommandIds (isCompleted : Bool) : List String :=
  if isCompleted then
    toggleCommandIds.filter fun s =>
      hasSub s.toList "incomplete".toList || hasSub s.toList "toggle".toList
  else
    toggleCommandIds.filter fun s =>
      hasSub s.toList "complete".toList || hasSub s.toList "toggle".toList

/-- The command loop of lines 1941–1954: the first identifier whose
execution does not throw wins; its out-of-band effect on the note is the
oracle's content. -/
def tryCommands (cmdEff : String → Option (List Str)) :
    List String → Option (List Str)
  | [] => none
  | c :: rest =>
    match cmdEff c with
    | some eff => some eff
    | none => tryCommands cmdEff rest

/-- `toggleTaskCompletionDirect` (lines 1965–2008) including its I/O: a
throwing read or write is caught and yields `false` with no mutation. -/
def toggleDirectFull (env : ToggleEnv) (t : Task) (content : List Str) :
    ToggleResult :=
  if !env.readOk then ⟨false, content, t.isCompleted⟩
  else
    match directCore t.line content with
    | none => ⟨false, content, t.isCompleted⟩
    | some (c2, comp) =>
      if env.writeOk then ⟨true, c2, comp⟩ else ⟨false, content, t.isCompleted⟩

/-- `toggleTaskViaCommand` (lines 1913–1963): open the file (a throw falls
to direct editing), require an editor view, fire the filtered commands in
order (first non-throwing command flips the flag and returns `true`),
otherwise fall back to direct editing. -/
def toggleTaskViaCommand (env : ToggleEnv) (t : Task) (content : List Str) :
    ToggleResult :=
  if env.openOk && env.editorOk then
    match tryCommands env.cmdEff (targetCommandIds t.isCompleted) with
    | some c2 => ⟨true, c2, !t.isCompleted⟩
    | none => toggleDirectFull env t content
  else toggleDirectFull env t content

/-- Method 1 (lines 1761–1800), `executeToggleTaskDoneCommand`: `none`
means "fall through to the next method" (a throw anywhere in the guarded
block).  An out-of-bounds line index returns the direct strategy's result;
a successful call writes the replacement line back and re-derives the
completion flag from the marker-only pattern, toggling blindly when the
replacement does not match it. -/
def toggleMethod1 (env : ToggleEnv) (t : Task) (content : List Str) :
    Option ToggleResult :=
  if !env.hasExecToggle then none
  else if !env.readOk then none
  else
    match content[t.line]? with
    | none => some (toggleDirectFull env t content)
    | some l =>
      match env.execToggle l with
      | none => none
      | some newLine =>
        if env.writeOk then
          some ⟨true, content.set t.line newLine,
            match parseMarkerOnly newLine with
            | some st => st ≠ ' '
            | none => !t.isCompleted⟩
        else none

/-- Method 2 (lines 1803–1833), `tasksApi.toggleTask`: only fires when the
listing yields the task; any throw is caught and falls through. -/
def toggleMethod2 (env : ToggleEnv) (t : Task) : Option ToggleResult :=
  if !env.hasToggleTask then none
  else
    match env.listing with
    | .throws => none
    | .absent => none
    | .ok entries =>
      match findApiTask entries t with
      | none => none
      | some _ =>
        match env.toggleTaskEff with
        | none => none
        | some c2 => some ⟨true, c2, !t.isCompleted⟩

/-- Method 3 and Methods 4–6 (lines 1835–1904): a missing listing accessor
or an unfound task goes to the command strategy; a throwing accessor
escapes to the outer catch (line 1906), which returns the direct strategy;
the three task-level methods are tried in order, each guarded. -/
def toggleMethod3 (env : ToggleEnv) (t : Task) (content : List Str) :
    ToggleResult :=
  match env.listing with
  | .absent => toggleTaskViaCommand env t content
  | .throws => toggleDirectFull env t content
  | .ok entries =>
    match findApiTask entries t with
    | none => toggleTaskViaCommand env t content
    | some e =>
      match (if e.hasToggle then e.toggleEff else none) with
      | some c2 => ⟨true, c2, !t.isCompleted⟩
      | none =>
        match (if e.hasToggleDone then e.toggleDoneEff else none) with
        | some c2 => ⟨true, c2, !t.isCompleted⟩
        | none =>
          match (if e.hasSetStatus then e.setStatusEff else none) with
          | some c2 => ⟨true, c2, !t.isCompleted⟩
          | none => toggleTaskViaCommand env t content

/-- The full `toggleTaskCompletion` (lines 1745–1911). -/
def toggleTaskCompletion (env : ToggleEnv) (t : Task) (content : List Str) :
    ToggleResult :=
  if !env.apiAvailable then toggleDirectFull env t content
  else
    match toggleMethod1 env t content with
    | some r => r
    | none =>
      match toggleMethod2 env t with
      | some r => r
      | none => toggleMethod3 env t content

/-- The checkbox handler of `attachCheckboxHandlers` (lines 2642–2674):
the checkbox shows `task.isCompleted`; a user click flips it
(`wasChecked`); the handler immediately reverts it to the pre-toggle flag,
then on success sets it to the post-toggle flag and on failure forces it
back to `!wasChecked`. -/
def checkboxAfterToggle (displayedBefore : Bool) (r : ToggleResult) : Bool :=
  let wasChecked := !displayedBefore
  if r.success then r.isCompleted else !wasChecked

/- ### Aggregation lemmas -/

theorem mem_dedupAux (ts : List Task) (seen : List Str) (t : Task)
    (h : t ∈ dedupAux ts seen) : t ∈ ts := by
  induction ts generalizing seen with
  | nil => simp [dedupAux] at h
  | cons a rest ih =>
    rw [dedupAux] at h
    by_cases hc : seen.contains (taskKey a) = true
    · rw [if_pos hc] at h
      exact List.mem_cons_of_mem _ (ih _ h)
    · rw [if_neg hc] at h
      rcases List.mem_cons.mp h with rfl | h2
      · exact List.mem_cons_self _ _
      · exact List.mem_cons_of_mem _ (ih _ h2)

theorem countP_key_dedupAux (ts : List Task) (seen : List Str) (k : Str) :
    (dedupAux ts seen).countP (fun t => taskKey t == k) =
      if k ∈ seen then 0 else min 1 (ts.countP fun t => taskKey t == k) := by
  induction ts generalizing seen with
  | nil => simp [dedupAux]
  | cons a rest ih =>
    rw [dedupAux]
    by_cases hc : seen.contains (taskKey a) = true
    · rw [if_pos hc]
      rw [ih]
      have hmem : taskKey a ∈ seen := List.mem_of_elem_eq_true hc
      by_cases hk : k ∈ seen
      · simp [hk]
      · have hne : (taskKey a == k) = false :=
          beq_eq_false_iff_ne.mpr fun he => hk (he ▸ hmem)
        simp [hk, List.countP_cons, hne]
    · rw [if_neg hc]
      have hnmem : taskKey a ∉ seen := fun hm => hc (List.elem_eq_true_of_mem hm)
      rw [List.countP_cons, ih]
      by_cases hak : taskKey a = k
      · have hkseen : k ∉ seen := hak ▸ hnmem
        have hkmem : k ∈ taskKey a :: seen := by
          rw [hak]; exact List.mem_cons_self _ _
        simp [hkmem, hkseen, List.countP_cons, hak]
      · have hne : (taskKey a == k) = false := beq_eq_false_iff_ne.mpr hak
        have hcons : (k ∈ taskKey a :: seen) ↔ k ∈ seen := by
          rw [List.mem_cons]
          exact ⟨fun h => h.elim (fun he => absurd he.symm hak) id, Or.inr⟩
        by_cases hk : k ∈ seen
        · simp [hk, hcons, hne, List.countP_cons]
        · simp [hk, hcons, hne, List.countP_cons]

theorem find?_key_dedupAux (ts : List Task) (seen : List Str) (k : Str)
    (hk : k ∉ seen) :
    (dedupAux ts seen).find? (fun t => taskKey t == k) =
      ts.find? (fun t => taskKey t == k) := by
  induction ts generalizing seen with
  | nil => simp [dedupAux]
  | cons a rest ih =>
    rw [dedupAux]
    by_cases hc : seen.contains (taskKey a) = true
    · rw [if_pos hc]
      have hmem : taskKey a ∈ seen := List.mem_of_elem_eq_true hc
      have hne : (taskKey a == k) = false :=
        beq_eq_false_iff_ne.mpr fun he => hk (he ▸ hmem)
      rw [List.find?_cons, hne, ih _ hk]
    · rw [if_neg hc]
      by_cases hak : taskKey a = k
      · have hbeq : (taskKey a == k) = true := beq_iff_eq.mpr hak
        rw [List.find?_cons, hbeq, List.find?_cons, hbeq]
      · have hne : (taskKey a == k) = false := beq_eq_false_iff_ne.mpr hak
        rw [List.find?_cons, hne, List.find?_cons, hne]
        refine ih _ fun hmem => ?_
        rcases List.mem_cons.mp hmem with h | h
        · exact hak h.symm
        · exact hk h

/-- The deduplication key determines the `(path, line)` pair: the line
digits contain no `:`, so the split at the last `:` is unambiguous. -/
theorem taskKey_inj (t1 t2 : Task) (h : taskKey t1 = taskKey t2) :
    t1.path = t2.path ∧ t1.line = t2.line := by
  unfold taskKey at h
  obtain ⟨h1, h2⟩ := last_sep_split ':' t1.path.toList (natDigits t1.line)
    t2.path.toList (natDigits t2.line) (natDigits_no_colon _) (natDigits_no_colon _) h
  exact ⟨String.ext h1, natDigits_inj _ _ h2⟩

/-- Pointwise equality of the `(path, line)` test and the key test. -/
theorem pairPred_eq_keyPred (p : String) (l : Nat) (t : Task) :
    (t.path == p && t.line == l) = (taskKey t == (p.toList ++ ':' :: natDigits l)) := by
  rw [Bool.eq_iff_iff]
  simp only [Bool.and_eq_true, beq_iff_eq]
  constructor
  · rintro ⟨hp, hl⟩
    rw [taskKey, hp, hl]
  · intro h
    rw [taskKey] at h
    obtain ⟨h1, h2⟩ := last_sep_split ':' t.path.toList (natDigits t.line)
      p.toList (natDigits l) (natDigits_no_colon _) (natDigits_no_colon _) h
    exact ⟨String.ext h1, natDigits_inj _ _ h2⟩

/- ### Claim C4 -/

/-- C4: every task in the aggregated list after loading contains the
calendar-emoji marker in its `text`, and a raw task whose text lacks the
marker never appears in the aggregated set (the `loadTasks` filter of lines
619–622 runs on the raw output of either discovery strategy before
deduplication). -/
theorem calendar_marker_invariant_C4 (raw : List Task) (t : Task) :
    (t ∈ loadTasksAggregate raw → containsCalendarMarker t.text = true) ∧
    (containsCalendarMarker t.text = false → t ∉ loadTasksAggregate raw) := by
  constructor
  · intro h
    have h2 : t ∈ raw.filter fun t => containsCalendarMarker t.text :=
      mem_dedupAux _ _ _ h
    exact (List.mem_filter.mp h2).2
  · intro hmark h
    have h2 : t ∈ raw.filter fun t => containsCalendarMarker t.text :=
      mem_dedupAux _ _ _ h
    rw [(List.mem_filter.mp h2).2] at hmark
    cases hmark

theorem calendar_marker_invariant_C4_witness :
    containsCalendarMarker "milk 📅 2025-03-14" = true ∧
    Task.mk "no marker" none "p.md" 1 false ∉
      loadTasksAggregate [Task.mk "milk 📅 2025-03-14" none "p.md" 0 false,
        Task.mk "no marker" none "p.md" 1 false] :=
  ⟨(calendar_marker_invariant_C4
      [Task.mk "milk 📅 2025-03-14" none "p.md" 0 false,
        Task.mk "no marker" none "p.md" 1 false]
      (Task.mk "milk 📅 2025-03-14" none "p.md" 0 false)).1 (by decide),
    (calendar_marker_invariant_C4
      [Task.mk "milk 📅 2025-03-14" none "p.md" 0 false,
        Task.mk "no marker" none "p.md" 1 false]
      (Task.mk "no marker" none "p.md" 1 false)).2 (by decide)⟩

/- ### Claim C5 -/

/-- C5 (amended): among the marker-bearing raw entries with a given
`(path, line)` pair, aggregation keeps exactly one — the first
marker-bearing occurrence in input order.  (Entries lacking the calendar
marker are removed by the filter that precedes deduplication, so they
neither survive nor count as the kept occurrence.) -/
theorem dedup_keeps_first_C5 (raw : List Task) (p : String) (l : Nat)
    (h : 2 ≤ (raw.filter fun t => containsCalendarMarker t.text).countP
      fun t => t.path == p && t.line == l) :
    (loadTasksAggregate raw).countP (fun t => t.path == p && t.line == l) = 1 ∧
    (loadTasksAggregate raw).find? (fun t => t.path == p && t.line == l) =
      (raw.filter fun t => containsCalendarMarker t.text).find?
        fun t => t.path == p && t.line == l := by
  have hfun : (fun t : Task => t.path == p && t.line == l) =
      fun t => taskKey t == (p.toList ++ ':' :: natDigits l) :=
    funext fun t => pairPred_eq_keyPred p l t
  rw [hfun] at h ⊢
  unfold loadTasksAggregate dedupTasks
  constructor
  · rw [countP_key_dedupAux]
    simp only [List.not_mem_nil, if_false]
    omega
  · exact find?_key_dedupAux _ _ _ (List.not_mem_nil _)

theorem dedup_keeps_first_C5_witness :
    (loadTasksAggregate [Task.mk "a 📅" none "p.md" 3 false,
        Task.mk "b 📅" none "p.md" 3 true]).countP
      (fun t => t.path == "p.md" && t.line == 3) = 1 ∧
    (loadTasksAggregate [Task.mk "a 📅" none "p.md" 3 false,
        Task.mk "b 📅" none "p.md" 3 true]).find?
      (fun t => t.path == "p.md" && t.line == 3) =
      some (Task.mk "a 📅" none "p.md" 3 false) := by
  have h := dedup_keeps_first_C5
    [Task.mk "a 📅" none "p.md" 3 false, Task.mk "b 📅" none "p.md" 3 true]
    "p.md" 3 (by decide)
  exact ⟨h.1, h.2.trans (by decide)⟩

/-- C5 as stated is false: an input list of raw tasks can contain two
entries with the same `(path, line)` pair but no calendar marker;
aggregation then yields zero (not one) tasks for that pair, because the
marker filter precedes deduplication. -/
theorem dedup_keeps_first_C5_counterexample :
    2 ≤ [Task.mk "a" none "p.md" 3 false,
        Task.mk "b" none "p.md" 3 true].countP
      (fun t => t.path == "p.md" && t.line == 3) ∧
    (loadTasksAggregate [Task.mk "a" none "p.md" 3 false,
        Task.mk "b" none "p.md" 3 true]).countP
      (fun t => t.path == "p.md" && t.line == 3) ≠ 1 := by
  decide

/- ### Claim C6 -/

/-- C6: every task stored by either discovery strategy has a non-null
`date` (the fallback chain, ultimately today, always assigns one before the
push), and that date has hours, minutes, seconds and milliseconds all zero
(the unconditional `setHours(0,0,0,0)` of lines 726–727 and 929–930). -/
theorem stored_date_normalized_C6 (tz : Int) (momentParse : Str → Option Int)
    (due strt sched : Option (Option Int)) (text path : String)
    (fname : Str) (line : Nat) (completed : Bool) (now : Int) :
    (mkTaskAPI tz momentParse due strt sched text path fname line completed
        now).date =
      some (resolveTaskDateAPI tz momentParse due strt sched text.toList fname
        now) ∧
    jsGetHours tz (resolveTaskDateAPI tz momentParse due strt sched text.toList
      fname now) = 0 ∧
    jsGetMinutes tz (resolveTaskDateAPI tz momentParse due strt sched
      text.toList fname now) = 0 ∧
    jsGetSeconds tz (resolveTaskDateAPI tz momentParse due strt sched
      text.toList fname now) = 0 ∧
    jsGetMilliseconds tz (resolveTaskDateAPI tz momentParse due strt sched
      text.toList fname now) = 0 ∧
    (mkTaskManual tz momentParse text path fname line completed now).date =
      some (resolveTaskDateManual tz momentParse text.toList fname now) ∧
    jsGetHours tz (resolveTaskDateManual tz momentParse text.toList fname
      now) = 0 ∧
    jsGetMinutes tz (resolveTaskDateManual tz momentParse text.toList fname
      now) = 0 ∧
    jsGetSeconds tz (resolveTaskDateManual tz momentParse text.toList fname
      now) = 0 ∧
    jsGetMilliseconds tz (resolveTaskDateManual tz momentParse text.toList
      fname now) = 0 := by
  have hA := midnight_time_components tz
    (match
      (match
        (match due with
        | some v => some v
        | none => match strt with | some v => some v | none => sched) with
      | some (some ms) => some ms
      | _ => extractDateFromText tz text.toList) with
    | some ms => ms
    | none => fileNameFallbackDate tz momentParse fname now)
  have hM := midnight_time_components tz
    (match extractDateFromText tz text.toList with
    | some ms => ms
    | none => fileNameFallbackDate tz momentParse fname now)
  exact ⟨rfl, hA.1, hA.2.1, hA.2.2.1, hA.2.2.2, rfl, hM.1, hM.2.1, hM.2.2.1,
    hM.2.2.2⟩

/- ### Claim C3 -/

/-- C3: for every month set as `currentMonth`, grid generation produces
exactly 42 cells, the first cell's date is a Monday (`getDay() = 1`) lying
on or before the first of the month, and the first of the month occurs
among the cells (hence at an index ≥ 0). -/
theorem grid_generation_C3 (tz y monthIndex : Int) :
    (gridCellDates tz y monthIndex).length = 42 ∧
    (gridCellDates tz y monthIndex).head? =
      some (gridStartDate tz y monthIndex) ∧
    jsGetDay tz (gridStartDate tz y monthIndex) = 1 ∧
    gridStartDate tz y monthIndex ≤ newDateYMD tz y monthIndex 1 ∧
    newDateYMD tz y monthIndex 1 ∈ gridCellDates tz y monthIndex := by
  set C := daysFromCivil y (monthIndex + 1) 1 with hC
  have hfd : newDateYMD tz y monthIndex 1 = C * msPerDay - tz := rfl
  have hdow : jsGetDay tz (newDateYMD tz y monthIndex 1) = (C + 4) % 7 := by
    rw [hfd]
    unfold jsGetDay localDay msPerDay
    omega
  have hdow_bounds : 0 ≤ (C + 4) % 7 ∧ (C + 4) % 7 < 7 :=
    ⟨Int.emod_nonneg _ (by norm_num), Int.emod_lt_of_pos _ (by norm_num)⟩
  have hsub : gridStartDate tz y monthIndex =
      newDateYMD tz y monthIndex 1 -
        (if (C + 4) % 7 = 0 then 6 else (C + 4) % 7 - 1) * msPerDay := by
    unfold gridStartDate
    simp only []
    rw [hdow]
  refine ⟨by simp only [gridCellDates, List.length_map, List.length_range], ?_, ?_, ?_, ?_⟩
  · show ((List.range 42).map fun i : Nat =>
      gridStartDate tz y monthIndex + (i : Int) * msPerDay).head? = _
    rw [List.head?_map]
    have h0 : (List.range 42).head? = some 0 := by decide
    rw [h0]
    simp
  · rw [hsub, hfd]
    unfold jsGetDay localDay msPerDay
    by_cases h0 : (C + 4) % 7 = 0
    · rw [if_pos h0]
      omega
    · rw [if_neg h0]
      omega
  · rw [hsub]
    have hpos : 0 ≤ (if (C + 4) % 7 = 0 then 6 else (C + 4) % 7 - 1) := by
      by_cases h0 : (C + 4) % 7 = 0
      · rw [if_pos h0]; norm_num
      · rw [if_neg h0]; omega
    have : 0 ≤ (if (C + 4) % 7 = 0 then 6 else (C + 4) % 7 - 1) * msPerDay :=
      mul_nonneg hpos (by norm_num [msPerDay])
    omega
  · set sub : Int := if (C + 4) % 7 = 0 then 6 else (C + 4) % 7 - 1 with hsubdef
    have hsub_bounds : 0 ≤ sub ∧ sub ≤ 6 := by
      rw [hsubdef]
      by_cases h0 : (C + 4) % 7 = 0
      · rw [if_pos h0]; omega
      · rw [if_neg h0]; omega
    rw [gridCellDates]
    refine List.mem_map.mpr ⟨sub.toNat, List.mem_range.mpr ?_, ?_⟩
    · omega
    · have hcast : (sub.toNat : Int) = sub := Int.toNat_of_nonneg hsub_bounds.1
      rw [hcast, hsub, hsubdef]
      ring

/- ### Claims C10 and C2 -/

/-- The checklist marker of line `i` of a file, as re-derived by the task
pattern (a statement-level projection). -/
def lineMarker (content : List Str) (i : Nat) : Option Char :=
  match content[i]? with
  | none => none
  | some l => (parseTaskLine l).map fun r => r.2.1

/-- One successful direct toggle, written out: the replacement line and the
new flag. -/
theorem directCore_step (content : List Str) (i : Nat) (l ib txt : Str)
    (m : Char) (hl : content[i]? = some l)
    (hp : parseTaskLine l = some (ib, m, txt)) :
    directCore i content =
      some (content.set i
        (ib ++ ' ' :: '[' :: (if m = ' ' then 'x' else ' ') :: ']' :: ' ' :: txt),
        (m == ' ')) := by
  unfold directCore
  rw [hl]
  simp only []
  unfold toggleLine
  rw [hp]
  simp only []
  by_cases hm : m = ' ' <;> simp [hm]

/-- C10: on a line matching the checklist pattern, the direct toggle writes
back indent-plus-bullet, one space, `[newMarker]`, one space, and the
matched task text verbatim; `newMarker` is `' '` for each of the completed
markers `x`, `X`, `✓`, `✅` and `'x'` for `' '`; the written line matches
the pattern again with exactly those components. -/
theorem direct_toggle_line_shape_C10 (l ib txt : Str) (m : Char)
    (h : parseTaskLine l = some (ib, m, txt)) :
    toggleLine l =
      some (ib ++ ' ' :: '[' :: (if m = ' ' then 'x' else ' ') :: ']' :: ' ' :: txt,
        (m == ' ')) ∧
    ((m = 'x' ∨ m = 'X' ∨ m = '✓' ∨ m = '✅') →
      (if m = ' ' then 'x' else ' ') = ' ') ∧
    (m = ' ' → (if m = ' ' then 'x' else ' ') = 'x') ∧
    parseTaskLine
        (ib ++ ' ' :: '[' :: (if m = ' ' then 'x' else ' ') :: ']' :: ' ' :: txt) =
      some (ib, (if m = ' ' then 'x' else ' '), txt) := by
  obtain ⟨⟨iws, b, rfl, hiws, hbor, _⟩, hm, hne, hdot, hshape⟩ :=
    parseTaskLine_sound l _ _ m h
  refine ⟨?_, ?_, ?_, ?_⟩
  · unfold toggleLine
    rw [h]
    simp only []
    by_cases hsp : m = ' ' <;> simp [hsp]
  · rintro (rfl | rfl | rfl | rfl) <;> rfl
  · rintro rfl; rfl
  · have hm1 : taskMarkerChar (if m = ' ' then 'x' else ' ') = true := by
      by_cases hsp : m = ' ' <;> simp [hsp, taskMarkerChar]
    exact parseTaskLine_rebuild iws b _ txt hiws hbor hm1 hdot hshape

theorem direct_toggle_line_shape_C10_witness :
    toggleLine "- [x] do it 📅".toList = some ("- [ ] do it 📅".toList, false) ∧
    parseTaskLine "- [ ] do it 📅".toList =
      some ("-".toList, ' ', "do it 📅".toList) := by
  have h := direct_toggle_line_shape_C10 "- [x] do it 📅".toList "-".toList
    "do it 📅".toList 'x' (by decide)
  exact ⟨h.1.trans (by decide), h.2.2.2.trans (by decide)⟩

/-- C2 (amended): toggling a task twice through the direct text
substitution (both toggles succeeding) restores `isCompleted` to its
original value provided that value was derived from the marker
(completed ⟺ marker not blank, as both discovery strategies guarantee),
and restores the line's marker character exactly for original markers `' '`
and `'x'`; the completed markers `X`, `✓`, `✅` come back as the normalized
`x` — same completion state, different character. -/
theorem double_toggle_C2 (content : List Str) (t : Task) (l ib txt : Str)
    (m : Char) (hl : content[t.line]? = some l)
    (hp : parseTaskLine l = some (ib, m, txt))
    (hder : t.isCompleted = !(m == ' ')) :
    ∃ c1 f1 c2 f2,
      directCore t.line content = some (c1, f1) ∧
      directCore t.line c1 = some (c2, f2) ∧
      f2 = t.isCompleted ∧
      lineMarker c2 t.line = some (if m = ' ' then ' ' else 'x') ∧
      ((m = ' ' ∨ m = 'x') → lineMarker c2 t.line = some m) := by
  obtain ⟨⟨iws, b, rfl, hiws, hbor, _⟩, hm, hne, hdot, hshape⟩ :=
    parseTaskLine_sound l _ _ m hp
  have hlen : t.line < content.length := by
    rcases List.getElem?_eq_some.mp hl with ⟨hlt, _⟩
    exact hlt
  set m1 : Char := if m = ' ' then 'x' else ' ' with hm1def
  set nl1 : Str := (iws ++ [b]) ++ ' ' :: '[' :: m1 :: ']' :: ' ' :: txt with hnl1
  have hstep1 : directCore t.line content = some (content.set t.line nl1, (m == ' ')) :=
    directCore_step content t.line l _ txt m hl hp
  have hm1marker : taskMarkerChar m1 = true := by
    rw [hm1def]
    by_cases hsp : m = ' ' <;> simp [hsp, taskMarkerChar]
  have hparse1 : parseTaskLine nl1 = some (iws ++ [b], m1, txt) :=
    parseTaskLine_rebuild iws b m1 txt hiws hbor hm1marker hdot hshape
  have hget1 : (content.set t.line nl1)[t.line]? = some nl1 :=
    List.getElem?_set_eq_of_lt _ (by simpa using hlen)
  set m2 : Char := if m1 = ' ' then 'x' else ' ' with hm2def
  set nl2 : Str := (iws ++ [b]) ++ ' ' :: '[' :: m2 :: ']' :: ' ' :: txt with hnl2
  have hstep2 : directCore t.line (content.set t.line nl1) =
      some ((content.set t.line nl1).set t.line nl2, (m1 == ' ')) :=
    directCore_step _ t.line nl1 _ txt m1 hget1 hparse1
  have hparse2 : parseTaskLine nl2 = some (iws ++ [b], m2, txt) :=
    parseTaskLine_rebuild iws b m2 txt hiws hbor
      (by rw [hm2def]; by_cases hsp : m1 = ' ' <;> simp [hsp, taskMarkerChar])
      hdot hshape
  have hget2 : ((content.set t.line nl1).set t.line nl2)[t.line]? = some nl2 :=
    List.getElem?_set_eq_of_lt _ (by simpa using hlen)
  refine ⟨content.set t.line nl1, (m == ' '),
    (content.set t.line nl1).set t.line nl2, (m1 == ' '),
    hstep1, hstep2, ?_, ?_, ?_⟩
  · rw [hder, hm1def]
    by_cases hsp : m = ' ' <;> simp [hsp]
  · rw [lineMarker, hget2]
    simp only [hparse2, Option.map_some]
    rw [hm2def, hm1def]
    by_cases hsp : m = ' ' <;> simp [hsp]
  · rintro (rfl | rfl)
    · rw [lineMarker, hget2]
      simp only [hparse2, Option.map_some]
      rw [hm2def, hm1def]
      simp
    · rw [lineMarker, hget2]
      simp only [hparse2, Option.map_some]
      rw [hm2def, hm1def]
      simp

theorem double_toggle_C2_witness :
    (Task.mk "a 📅" none "p.md" 0 true).isCompleted = !('x' == ' ') ∧
    ∃ c1 f1 c2 f2,
      directCore 0 ["- [x] a 📅".toList] = some (c1, f1) ∧
      directCore 0 c1 = some (c2, f2) ∧
      f2 = (Task.mk "a 📅" none "p.md" 0 true).isCompleted ∧
      lineMarker c2 0 = some 'x' := by
  have h := double_toggle_C2 ["- [x] a 📅".toList]
    (Task.mk "a 📅" none "p.md" 0 true) "- [x] a 📅".toList "-".toList
    "a 📅".toList 'x' (by decide) (by decide) (by decide)
  obtain ⟨c1, f1, c2, f2, h1, h2, h3, _, h5⟩ := h
  exact ⟨by decide, c1, f1, c2, f2, h1, h2, h3, h5 (Or.inr rfl)⟩

/-- C2 as stated is false: for the completed marker `X` the double toggle
succeeds twice but leaves the line's marker as the normalized `x`, not the
original `X`. -/
theorem double_toggle_C2_counterexample :
    directCore 0 ["- [X] a 📅".toList] = some (["- [ ] a 📅".toList], false) ∧
    directCore 0 ["- [ ] a 📅".toList] = some (["- [x] a 📅".toList], true) ∧
    lineMarker ["- [x] a 📅".toList] 0 = some 'x' ∧ 'x' ≠ 'X' := by
  refine ⟨by decide, by decide, by decide, by decide⟩

/- ### Claim C1 -/

theorem mem_sortTasksJS (ts : List Task) (t : Task) (h : t ∈ ts) :
    t ∈ sortTasksJS ts := by
  unfold sortTasksJS
  rcases hc : t.isCompleted with _ | _
  · exact List.mem_append_left _ (List.mem_filter.mpr ⟨h, by simp [hc]⟩)
  · exact List.mem_append_right _ (List.mem_filter.mpr ⟨h, by simp [hc]⟩)

/-- C1: an aggregated task that is incomplete and dated strictly before
today is excluded from the cell of its own past date (`getTasksForDate`
filters it out for every query date on that calendar day), lands in the
overdue bucket, and is included in today's rendered cell (where the overdue
bucket is prepended, surviving the visibility filter and the sort); a
completed task dated a past date remains in that date's `getTasksForDate`
and in that date's rendered cell. -/
theorem overdue_migration_C1 (tz : Int) (tasks : List Task) (now : Int)
    (t : Task) (d : Int) (hmem : t ∈ tasks) (hdate : t.date = some d)
    (hpast : localDay tz d < localDay tz now) :
    (t.isCompleted = false →
      (∀ q, localDay tz q = localDay tz d → t ∉ getTasksForDate tz tasks now q) ∧
      t ∈ getOverdueTasks tz tasks now ∧
      (∀ sc, t ∈ cellTasks tz tasks now (jsSetMidnight tz now) sc)) ∧
    (t.isCompleted = true →
      ∀ q, localDay tz q = localDay tz d →
        t ∈ getTasksForDate tz tasks now q ∧
        t ∈ cellTasks tz tasks now q true) := by
  constructor
  · intro hinc
    refine ⟨?_, ?_, ?_⟩
    · intro q hq hmemq
      have hpred := (List.mem_filter.mp hmemq).2
      rw [hdate] at hpred
      simp only [] at hpred
      rw [if_neg (by rw [hq]; simp)] at hpred
      have hpastq : jsSetMidnight tz q < jsSetMidnight tz now :=
        (setMidnight_lt_iff tz q now).mpr (by rw [hq]; exact hpast)
      rw [if_pos (by simp [hpastq, hinc])] at hpred
      cases hpred
    · refine List.mem_filter.mpr ⟨hmem, ?_⟩
      rw [hdate]
      simp only []
      have hlt : d < jsSetMidnight tz now := lt_setMidnight_of_day_lt tz d now hpast
      rw [if_neg (by omega)]
      simp [hinc]
    · intro sc
      have hover : t ∈ getOverdueTasks tz tasks now := by
        refine List.mem_filter.mpr ⟨hmem, ?_⟩
        rw [hdate]
        simp only []
        have hlt : d < jsSetMidnight tz now := lt_setMidnight_of_day_lt tz d now hpast
        rw [if_neg (by omega)]
        simp [hinc]
      unfold cellTasks
      simp only [if_true]
      apply mem_sortTasksJS
      rcases sc with _ | _
      · simp only [Bool.false_eq_true, if_false]
        exact List.mem_filter.mpr ⟨List.mem_append_left _ hover, by simp [hinc]⟩
      · simp only [if_true]
        exact List.mem_append_left _ hover
  · intro hcomp q hq
    have hmemq : t ∈ getTasksForDate tz tasks now q := by
      refine List.mem_filter.mpr ⟨hmem, ?_⟩
      rw [hdate]
      simp only []
      rw [if_neg (by rw [hq]; simp)]
      rw [if_neg (by simp [hcomp])]
    refine ⟨hmemq, ?_⟩
    have hqne : q ≠ jsSetMidnight tz now := by
      intro he
      have : localDay tz q = localDay tz now := by
        rw [he, localDay_setMidnight]
      rw [hq] at this
      omega
    unfold cellTasks
    simp only [if_true]
    rw [if_neg hqne]
    exact mem_sortTasksJS _ _ hmemq

theorem overdue_migration_C1_witness :
    (Task.mk "a 📅" (some 0) "p.md" 0 false) ∉
      getTasksForDate 0 [Task.mk "a 📅" (some 0) "p.md" 0 false,
        Task.mk "b 📅" (some 0) "p.md" 1 true] 86400000 0 ∧
    (Task.mk "a 📅" (some 0) "p.md" 0 false) ∈
      getOverdueTasks 0 [Task.mk "a 📅" (some 0) "p.md" 0 false,
        Task.mk "b 📅" (some 0) "p.md" 1 true] 86400000 ∧
    (Task.mk "a 📅" (some 0) "p.md" 0 false) ∈
      cellTasks 0 [Task.mk "a 📅" (some 0) "p.md" 0 false,
        Task.mk "b 📅" (some 0) "p.md" 1 true] 86400000 86400000 true ∧
    (Task.mk "b 📅" (some 0) "p.md" 1 true) ∈
      getTasksForDate 0 [Task.mk "a 📅" (some 0) "p.md" 0 false,
        Task.mk "b 📅" (some 0) "p.md" 1 true] 86400000 0 ∧
    (Task.mk "b 📅" (some 0) "p.md" 1 true) ∈
      cellTasks 0 [Task.mk "a 📅" (some 0) "p.md" 0 false,
        Task.mk "b 📅" (some 0) "p.md" 1 true] 86400000 0 true := by
  have hA := overdue_migration_C1 0
    [Task.mk "a 📅" (some 0) "p.md" 0 false, Task.mk "b 📅" (some 0) "p.md" 1 true]
    86400000 (Task.mk "a 📅" (some 0) "p.md" 0 false) 0 (by decide) rfl (by decide)
  have hB := overdue_migration_C1 0
    [Task.mk "a 📅" (some 0) "p.md" 0 false, Task.mk "b 📅" (some 0) "p.md" 1 true]
    86400000 (Task.mk "b 📅" (some 0) "p.md" 1 true) 0 (by decide) rfl (by decide)
  obtain ⟨hA1, -⟩ := hA
  obtain ⟨-, hB2⟩ := hB
  have hA' := hA1 rfl
  have hB' := hB2 rfl 0 (by decide)
  have hmid : jsSetMidnight 0 86400000 = 86400000 := by decide
  refine ⟨hA'.1 0 (by decide), hA'.2.1, ?_, hB'.1, hB'.2⟩
  have := hA'.2.2 true
  rwa [hmid] at this

/- ### Claim C8 -/

/-- C8 (amended): a rendered cell displays at most 4 tasks, and the
numeric count element is shown (with the total count as its text) if and
only if the cell's sorted task list is non-empty — not only when more than
4 tasks exist. -/
theorem cell_display_C8 (sorted : List Task) :
    (renderCell sorted).displayed.length ≤ 4 ∧
    ((renderCell sorted).badgeShown = true ↔ 0 < sorted.length) ∧
    (renderCell sorted).badgeCount = sorted.length := by
  refine ⟨?_, by simp [renderCell], rfl⟩
  simp only [renderCell, List.length_take]
  omega

theorem cell_display_C8_witness :
    (renderCell [Task.mk "a 📅" (some 0) "p.md" 0 false]).displayed.length ≤ 4 ∧
    (renderCell [Task.mk "a 📅" (some 0) "p.md" 0 false]).badgeShown = true :=
  ⟨(cell_display_C8 [Task.mk "a 📅" (some 0) "p.md" 0 false]).1,
    ((cell_display_C8 [Task.mk "a 📅" (some 0) "p.md" 0 false]).2.1).mpr
      (by decide)⟩

/-- C8 as stated is false: a cell with exactly one task shows the count
element although not more than 4 tasks exist. -/
theorem cell_display_C8_counterexample :
    ¬(((renderCell [Task.mk "a 📅" (some 0) "p.md" 0 false]).badgeShown = true) ↔
      4 < [Task.mk "a 📅" (some 0) "p.md" 0 false].length) := by
  decide

/- ### Claim C7 -/

theorem hasDateKeyword_append_due (a ds : Str) :
    hasDateKeyword (a ++ ' ' :: 'd' :: 'u' :: 'e' :: ':' :: ':' :: ds) = true := by
  unfold hasDateKeyword
  have hlow : lowerStr (a ++ ' ' :: 'd' :: 'u' :: 'e' :: ':' :: ':' :: ds) =
      lowerStr a ++ ' ' :: 'd' :: 'u' :: 'e' :: ':' :: ':' :: lowerStr ds := by
    unfold lowerStr
    rw [List.map_append]
    rfl
  rw [hlow]
  have hsub : hasSub (' ' :: 'd' :: 'u' :: 'e' :: ':' :: ':' :: lowerStr ds)
      "due:".toList = true := by
    have h2 : hasSub ('d' :: 'u' :: 'e' :: ':' :: ':' :: lowerStr ds)
        "due:".toList = true := by
      have hl : leadMatch "due:".toList
          ('d' :: 'u' :: 'e' :: ':' :: ':' :: lowerStr ds) = true := by
        simp [leadMatch]
      rw [hasSub, hl]
      simp
    rw [hasSub, h2]
    simp
  rw [hasSub_append_right _ _ _ hsub]
  rfl

/-- A definition following the words of claim C7 (for comparison with the
code's `hasDate` test): a "recognizable date token" is one of the
emoji/due/start/scheduled forms, or a bare `YYYY-MM-DD`, `DD/MM/YYYY` or
`DD.MM.YYYY` date. -/
def claimRecognizableDateToken (s : Str) : Bool :=
  hasDateKeyword s || (scanFor matchYMDAt s).isSome ||
    (scanFor (matchDDYAt '/') s).isSome || (scanFor (matchDDYAt '.') s).isSome

/-- C7 (amended): in the task-creation flow with an explicit date, the
due-date token is appended if and only if the line has none of the
emoji/`due:`/`start:`/`scheduled:` tokens — a bare date in the line does
NOT suppress the append; afterwards the authoritative target date is
re-resolved from the finalized line, an extracted date token overriding
the supplied date, the supplied date used when no token is extracted, and
today used when neither exists. -/
theorem creation_date_resolution_C7 (tz : Int) (line dateStr : Str)
    (supplied : Option Int) (now : Int) :
    (finalTaskLine line supplied.isSome dateStr ≠ line ↔
      (supplied.isSome = true ∧ hasDateKeyword line = false)) ∧
    (hasDateKeyword line = false → supplied.isSome = true →
      finalTaskLine line supplied.isSome dateStr =
        jsTrim line ++ ' ' :: 'd' :: 'u' :: 'e' :: ':' :: ':' :: dateStr) ∧
    (∀ d2, extractDateFromText tz (finalTaskLine line supplied.isSome dateStr) =
        some d2 →
      resolveTargetDate tz supplied (finalTaskLine line supplied.isSome dateStr)
        now = d2) ∧
    (extractDateFromText tz (finalTaskLine line supplied.isSome dateStr) = none →
      ∀ s0, supplied = some s0 →
        resolveTargetDate tz supplied (finalTaskLine line supplied.isSome dateStr)
          now = s0) ∧
    (extractDateFromText tz (finalTaskLine line supplied.isSome dateStr) = none →
      supplied = none →
      resolveTargetDate tz supplied (finalTaskLine line supplied.isSome dateStr)
        now = now) := by
  refine ⟨⟨?_, ?_⟩, ?_, ?_, ?_, ?_⟩
  · intro hne
    by_cases hs : supplied.isSome = true
    · by_cases hk : hasDateKeyword line = true
      · exfalso
        apply hne
        unfold finalTaskLine
        rw [if_neg (by simp [hk])]
      · have hk' : hasDateKeyword line = false := by
          cases h2 : hasDateKeyword line
          · rfl
          · exact absurd h2 hk
        exact ⟨hs, hk'⟩
    · exfalso
      apply hne
      have hs' : supplied.isSome = false := by
        cases h2 : supplied.isSome
        · rfl
        · exact absurd h2 hs
      unfold finalTaskLine
      rw [if_neg (by simp [hs'])]
  · rintro ⟨hs, hk⟩ heq
    have happ : finalTaskLine line supplied.isSome dateStr =
        jsTrim line ++ ' ' :: 'd' :: 'u' :: 'e' :: ':' :: ':' :: dateStr := by
      unfold finalTaskLine
      rw [if_pos (by simp [hs, hk])]
    rw [happ] at heq
    have hcontra : hasDateKeyword line = true := by
      rw [← heq]
      exact hasDateKeyword_append_due _ _
    rw [hcontra] at hk
    cases hk
  · intro hk hs
    unfold finalTaskLine
    rw [if_pos (by simp [hs, hk])]
  · intro d2 hex
    unfold resolveTargetDate
    rw [hex]
  · intro hex s0 hs
    unfold resolveTargetDate
    rw [hex, hs]
  · intro hex hs
    unfold resolveTargetDate
    rw [hex, hs]

theorem creation_date_resolution_C7_witness :
    resolveTargetDate 0 none
      (finalTaskLine "- [ ] call mom".toList (Option.isSome (none : Option Int))
        "2025-06-01".toList) 777 = 777 ∧
    resolveTargetDate 0 (some 123)
      (finalTaskLine "- [ ] x due:: later".toList
        (Option.isSome (some (123 : Int))) "2025-06-01".toList) 777 = 123 ∧
    resolveTargetDate 0 (some 123)
      (finalTaskLine "- [ ] call mom".toList (Option.isSome (some (123 : Int)))
        "2025-06-01".toList) 777 =
      jsSetMidnight 0 (daysFromCivil 2025 6 1 * msPerDay) := by
  have h1 := creation_date_resolution_C7 0 "- [ ] call mom".toList
    "2025-06-01".toList (none : Option Int) 777
  have h2 := creation_date_resolution_C7 0 "- [ ] x due:: later".toList
    "2025-06-01".toList (some (123 : Int)) 777
  have h3 := creation_date_resolution_C7 0 "- [ ] call mom".toList
    "2025-06-01".toList (some (123 : Int)) 777
  exact ⟨h1.2.2.2.2 (by decide) rfl,
    h2.2.2.2.1 (by decide) 123 rfl,
    h3.2.2.1 (jsSetMidnight 0 (daysFromCivil 2025 6 1 * msPerDay)) (by decide)⟩

/-- C7 as stated is false: with an explicit date supplied, a line whose
only date is a bare `YYYY-MM-DD` (a "recognizable date token" in the
claim's sense) still gets a due-date token appended, because the code's
`hasDate` test does not include bare dates. -/
theorem creation_date_resolution_C7_counterexample :
    claimRecognizableDateToken "- [ ] Buy 2025-05-05".toList = true ∧
    finalTaskLine "- [ ] Buy 2025-05-05".toList
        (Option.isSome (some (0 : Int))) "2025-06-01".toList ≠
      "- [ ] Buy 2025-05-05".toList := by
  refine ⟨by decide, by decide⟩

/- ### Claim C9 -/

theorem toggleDirectFull_failure (env : ToggleEnv) (t : Task)
    (content : List Str)
    (h : (toggleDirectFull env t content).success = false) :
    toggleDirectFull env t content = ⟨false, content, t.isCompleted⟩ := by
  unfold toggleDirectFull at h ⊢
  cases hr : env.readOk
  case false => simp
  case true =>
    rw [hr] at h
    simp only [Bool.not_true, Bool.false_eq_true, if_false] at h ⊢
    cases hd : directCore t.line content
    case none => simp
    case some p =>
      rw [hd] at h
      obtain ⟨c2, comp⟩ := p
      simp only [] at h ⊢
      cases hw : env.writeOk
      case false => simp
      case true =>
        rw [hw] at h
        simp at h

theorem toggleTaskViaCommand_failure (env : ToggleEnv) (t : Task)
    (content : List Str)
    (h : (toggleTaskViaCommand env t content).success = false) :
    toggleTaskViaCommand env t content = ⟨false, content, t.isCompleted⟩ := by
  unfold toggleTaskViaCommand at h ⊢
  cases ho : env.openOk && env.editorOk
  case false =>
    rw [ho] at h
    simp only [Bool.false_eq_true, if_false] at h ⊢
    exact toggleDirectFull_failure env t content h
  case true =>
    rw [ho] at h
    rw [if_pos rfl] at h ⊢
    cases hc : tryCommands env.cmdEff (targetCommandIds t.isCompleted)
    case none =>
      rw [hc] at h
      simp only [] at h ⊢
      exact toggleDirectFull_failure env t content h
    case some c2 =>
      rw [hc] at h
      simp at h

/-- C9: whenever the completion-toggle operation returns failure after
exhausting all fallback strategies, the backing note's content and the
task's in-memory `isCompleted` flag are unchanged, and the bound checkbox
is restored to its original (pre-click) value. -/
theorem toggle_failure_no_mutation_C9 (env : ToggleEnv) (t : Task)
    (content : List Str)
    (h : (toggleTaskCompletion env t content).success = false) :
    (toggleTaskCompletion env t content).content = content ∧
    (toggleTaskCompletion env t content).isCompleted = t.isCompleted ∧
    checkboxAfterToggle t.isCompleted (toggleTaskCompletion env t content) =
      t.isCompleted := by
  have hmain : toggleTaskCompletion env t content =
      ⟨false, content, t.isCompleted⟩ := by
    unfold toggleTaskCompletion at h ⊢
    cases ha : env.apiAvailable
    case false =>
      rw [ha] at h
      simp only [Bool.not_false, if_true] at h ⊢
      exact toggleDirectFull_failure env t content h
    case true =>
      rw [ha] at h
      simp only [Bool.not_true, Bool.false_eq_true, if_false] at h ⊢
      cases h1 : toggleMethod1 env t content
      case some r =>
        rw [h1] at h
        simp only [] at h ⊢
        unfold toggleMethod1 at h1
        cases he : env.hasExecToggle
        · rw [he] at h1; simp at h1
        · rw [he] at h1
          simp only [Bool.not_true, Bool.false_eq_true, if_false] at h1
          cases hr : env.readOk
          · rw [hr] at h1; simp at h1
          · rw [hr] at h1
            simp only [Bool.not_true, Bool.false_eq_true, if_false] at h1
            cases hg : content[t.line]?
            case none =>
              rw [hg] at h1
              simp only [Option.some.injEq] at h1
              rw [← h1]
              exact toggleDirectFull_failure env t content (by rw [h1]; exact h)
            case some l =>
              rw [hg] at h1
              simp only [] at h1
              cases hx : env.execToggle l
              · rw [hx] at h1; simp at h1
              · rw [hx] at h1
                cases hw : env.writeOk
                · rw [hw] at h1; simp at h1
                · rw [hw] at h1
                  simp only [if_true, Option.some.injEq] at h1
                  rw [← h1] at h
                  simp at h
      case none =>
        rw [h1] at h
        simp only [] at h ⊢
        cases h2 : toggleMethod2 env t
        case some r =>
          rw [h2] at h
          simp only [] at h ⊢
          unfold toggleMethod2 at h2
          cases ht : env.hasToggleTask
          · rw [ht] at h2; simp at h2
          · rw [ht] at h2
            simp only [Bool.not_true, Bool.false_eq_true, if_false] at h2
            cases hl : env.listing
            case absent => rw [hl] at h2; simp at h2
            case throws => rw [hl] at h2; simp at h2
            case ok entries =>
              rw [hl] at h2
              simp only [] at h2
              cases hf : findApiTask entries t
              · rw [hf] at h2; simp at h2
              · rw [hf] at h2
                cases hte : env.toggleTaskEff
                · rw [hte] at h2; simp at h2
                · rw [hte] at h2
                  simp only [Option.some.injEq] at h2
                  rw [← h2] at h
                  simp at h
        case none =>
          rw [h2] at h
          simp only [] at h ⊢
          unfold toggleMethod3 at h ⊢
          cases hl : env.listing
          case absent =>
            rw [hl] at h
            exact toggleTaskViaCommand_failure env t content h
          case throws =>
            rw [hl] at h
            exact toggleDirectFull_failure env t content h
          case ok entries =>
            rw [hl] at h
            simp only [] at h ⊢
            cases hf : findApiTask entries t
            case none =>
              rw [hf] at h
              exact toggleTaskViaCommand_failure env t content h
            case some e =>
              rw [hf] at h
              simp only [] at h ⊢
              cases hm4 : (if e.hasToggle then e.toggleEff else none)
              case some c2 =>
                rw [hm4] at h
                simp at h
              case none =>
                rw [hm4] at h
                simp only [] at h ⊢
                cases hm5 : (if e.hasToggleDone then e.toggleDoneEff else none)
                case some c2 =>
                  rw [hm5] at h
                  simp at h
                case none =>
                  rw [hm5] at h
                  simp only [] at h ⊢
                  cases hm6 : (if e.hasSetStatus then e.setStatusEff else none)
                  case some c2 =>
                    rw [hm6] at h
                    simp at h
                  case none =>
                    rw [hm6] at h
                    simp only [] at h ⊢
                    exact toggleTaskViaCommand_failure env t content h
  rw [hmain]
  refine ⟨rfl, rfl, ?_⟩
  unfold checkboxAfterToggle
  simp

theorem toggle_failure_no_mutation_C9_witness :
    (toggleTaskCompletion
      (ToggleEnv.mk false true true false (fun _ => none) false none
        ListingBehavior.absent true true (fun _ => none))
      (Task.mk "a 📅" (some 0) "p.md" 5 false) ["- [ ] a 📅".toList]).content =
      ["- [ ] a 📅".toList] ∧
    (toggleTaskCompletion
      (ToggleEnv.mk false true true false (fun _ => none) false none
        ListingBehavior.absent true true (fun _ => none))
      (Task.mk "a 📅" (some 0) "p.md" 5 false)
      ["- [ ] a 📅".toList]).isCompleted = false ∧
    checkboxAfterToggle false
      (toggleTaskCompletion
        (ToggleEnv.mk false true true false (fun _ => none) false none
          ListingBehavior.absent true true (fun _ => none))
        (Task.mk "a 📅" (some 0) "p.md" 5 false) ["- [ ] a 📅".toList]) = false := by
  have h := toggle_failure_no_mutation_C9
    (ToggleEnv.mk false true true false (fun _ => none) false none
      ListingBehavior.absent true true (fun _ => none))
    (Task.mk "a 📅" (some 0) "p.md" 5 false) ["- [ ] a 📅".toList] (by rfl)
  exact ⟨h.1, h.2.1, h.2.2⟩

end TaskCalendar
